import Mathlib

/-!
Shallow embedding of the GitHub API proxy server (src/server.js) and proofs
about its response-shaping logic.

The server is an Express application with five routes:
  * GET /                                                liveness string
  * GET /api/github/*                                    generic REST pass-through
  * GET /api/github/users/:username/contributions        calendar flattener
  * GET /api/github/users/:username/pinned               pinned repositories
  * GET /api/github/users/:username/top-languages        language aggregator
  * GET /api/github/users/:username/detailed-activity    activity fetcher
  * GET /detailed-activity                               fixed 400 response
plus a final error-handling middleware.

Each handler is embedded as a pure function from a model of the upstream
HTTP response (status, ok flag, and the JSON-parse outcome of the body) to a
model of the response the handler sends.  JavaScript semantics that the
handlers rely on are embedded explicitly:
  * String.prototype.includes is jsIncludes (substring containment);
  * plain-object property order (Object.keys) is objectEntriesOrdered:
    array-index keys first in ascending numeric order, then the remaining
    string keys in insertion order (ECMA-262 OrdinaryOwnPropertyKeys);
  * Array.prototype.sort with comparator (a, b) => b.size - a.size is a
    stable descending sort by size (stability is mandated since ES2019, and
    any stable sort yields the same list), embedded as insertion sort;
  * Number arithmetic is IEEE-754 binary64: toDouble rounds an exact
    rational to the nearest representable double (round-to-nearest,
    ties-to-even), exact for the normal range, which covers every value the
    percentage computation can produce from byte sizes;
  * Number.prototype.toFixed(1) is ecmaToFixedTenths (ECMA-262 Number.prototype.toFixed:
    the integer n minimizing the distance of n/10 to the value, larger n on ties)
    followed by fixed1String rendering.
-/

namespace GithubProxy

/-- Minimal JSON value tree, used for bodies this server does not inspect
(the generic pass-through payload and upstream error details). -/
inductive Json where
  | null : Json
  | bool (b : Bool) : Json
  | num (n : Int) : Json
  | str (s : String) : Json
  | arr (elems : List Json) : Json
  | obj (fields : List (String × Json)) : Json

/-- The result of awaiting response.json(): either a parsed value or the
message of the SyntaxError thrown on invalid JSON. -/
def JsonParse (α : Type) : Type := Except String α

/-- Model of a fetch response: the ok flag (status in the 200 range), the
numeric status code, and the outcome of parsing the body as JSON. -/
structure UpstreamResponse (α : Type) where
  ok : Bool
  status : Nat
  body : Except String α

/-- JavaScript String.prototype.includes on character lists: true when
needle occurs contiguously inside hay (the empty needle always occurs). -/
def jsIncludes (needle : List Char) : List Char → Bool
  | [] => needle.isEmpty
  | c :: rest => needle.isPrefixOf (c :: rest) || jsIncludes needle rest

/-- The exclusion check of the generic /api/github/* handler (server.js
lines 24-31): hand off to the next route when the wildcard suffix contains
one of the four slash-prefixed reserved substrings. -/
def skipsToNext (githubPath : String) : Bool :=
  jsIncludes "/detailed-activity".data githubPath.data ||
  jsIncludes "/top-languages".data githubPath.data ||
  jsIncludes "/pinned".data githubPath.data ||
  jsIncludes "/contributions".data githubPath.data

/-- Response of the generic /api/github/* handler. -/
inductive GenericResult where
  | next : GenericResult
  | ok (body : Json) : GenericResult
  | upstreamError (status : Nat) (details : Json) : GenericResult
  | caughtError (message : String) : GenericResult

/-- HTTP status code of a generic-handler response (next never responds). -/
def GenericResult.statusCode : GenericResult → Nat
  | .next => 0
  | .ok _ => 200
  | .upstreamError s _ => s
  | .caughtError _ => 500

/-- Generic /api/github/* handler (server.js lines 20-59).  When the suffix
passes the exclusion check it calls upstream; a non-ok upstream status is
propagated with an error envelope whose details are the parsed upstream
body, or an empty object when that body fails to parse; an ok status
returns the parsed body, and a body-parse failure on the ok path is caught
and reported as a 500. -/
def genericHandler (githubPath : String) (resp : UpstreamResponse Json) : GenericResult :=
  if skipsToNext githubPath then .next
  else if !resp.ok then
    .upstreamError resp.status (match resp.body with
      | .ok j => j
      | .error _ => Json.obj [])
  else match resp.body with
    | .ok j => .ok j
    | .error m => .caughtError m

/-- One GraphQL error object; the handlers only read its message field. -/
structure GqlError where
  message : String
deriving DecidableEq

/-- Message of the TypeError thrown by reading .message off
data.errors[0] when the errors array is empty. -/
def undefinedReadMessage : String :=
  "Cannot read properties of undefined (reading 'message')"

/-- Value of error.message after throw new Error(data.errors[0].message):
the first error message, or the TypeError text when the array is empty
(the member access itself throws before Error is constructed). -/
def gqlThrownMessage : List GqlError → String
  | e :: _ => e.message
  | [] => undefinedReadMessage

/-- One day of the contribution calendar as sent by upstream. -/
structure ContributionDay where
  date : String
  contributionCount : Nat
  color : String
deriving DecidableEq

/-- One week of the contribution calendar. -/
structure ContributionWeek where
  contributionDays : List ContributionDay
deriving DecidableEq

/-- The contribution calendar: total plus nested weeks/days. -/
structure ContributionCalendar where
  totalContributions : Nat
  weeks : List ContributionWeek
deriving DecidableEq

/-- The contributionsCollection object of the contributions query. -/
structure ContributionsCollection where
  contributionCalendar : Option ContributionCalendar
deriving DecidableEq

/-- The user object of the contributions query. -/
structure ContributionsUser where
  contributionsCollection : Option ContributionsCollection
deriving DecidableEq

/-- The data object of the contributions query. -/
structure ContributionsData where
  user : Option ContributionsUser
deriving DecidableEq

/-- Parsed body of the upstream GraphQL response for the contributions
route: an optional errors array beside the optional data tree. -/
structure ContributionsBody where
  errors : Option (List GqlError)
  data : Option ContributionsData
deriving DecidableEq

/-- One record of the flattened contributions array sent to the caller. -/
structure FlatContribution where
  date : String
  count : Nat
  color : String
deriving DecidableEq

/-- Response of the contributions handler. -/
inductive ContributionsResult where
  | ok (totalContributions : Nat) (contributions : List FlatContribution)
  | notFound (rawResponse : ContributionsBody)
  | caughtError (message : String)
deriving DecidableEq

/-- HTTP status code attached to each contributions-handler response. -/
def ContributionsResult.statusCode : ContributionsResult → Nat
  | .ok _ _ => 200
  | .notFound _ => 404
  | .caughtError _ => 500

/-- The nested forEach/push loop of server.js lines 117-126: flatten the
weeks/days tree by appending one record per day to a growing array. -/
def flattenCalendar (cal : ContributionCalendar) : List FlatContribution :=
  cal.weeks.foldl
    (fun acc week =>
      week.contributionDays.foldl
        (fun acc2 day => acc2 ++ [⟨day.date, day.contributionCount, day.color⟩]) acc)
    []

/-- Contributions handler (server.js lines 62-136).  Parse failure and the
error thrown on a present errors field are caught and become a 500; a
missing calendar (anywhere along the optional chain) becomes a 404 with
the raw body; otherwise the calendar is flattened. -/
def contributionsHandler (resp : UpstreamResponse ContributionsBody) : ContributionsResult :=
  match resp.body with
  | .error m => .caughtError m
  | .ok data =>
    match data.errors with
    | some errs => .caughtError (gqlThrownMessage errs)
    | none =>
      match ((data.data.bind (·.user)).bind (·.contributionsCollection)).bind
          (·.contributionCalendar) with
      | none => .notFound data
      | some cal => .ok cal.totalContributions (flattenCalendar cal)

/-- Specification-side flattening: one record per day, weeks in order and
days in order within each week. -/
def calendarDays (cal : ContributionCalendar) : List FlatContribution :=
  (cal.weeks.flatMap (·.contributionDays)).map
    (fun day => ⟨day.date, day.contributionCount, day.color⟩)

/-- Number of binary digits of a natural number, written with explicit
fuel so that it reduces inside the kernel. -/
def natBitsAux : Nat → Nat → Nat
  | 0, _ => 0
  | fuel + 1, n => if n = 0 then 0 else natBitsAux fuel (n / 2) + 1

/-- Number of binary digits of a natural number (0 has none). -/
def natBits (n : Nat) : Nat := natBitsAux n n

/-- Round a rational to the nearest integer, ties to even. -/
def roundNearestEven (q : ℚ) : ℤ :=
  let f := ⌊q⌋
  if q - f < 1/2 then f
  else if (1 : ℚ)/2 < q - f then f + 1
  else if f % 2 = 0 then f else f + 1

/-- Integer power of two inside the rationals. -/
def qpow2 (e : ℤ) : ℚ := (2 : ℚ) ^ e

/-- Estimate of the binary exponent of a rational, off by at most one. -/
def dblExpGuess (q : ℚ) : ℤ := (natBits q.num.natAbs : ℤ) - (natBits q.den : ℤ)

/-- Round an exact rational to the nearest IEEE-754 binary64 value
(round-to-nearest, ties-to-even), as an exact rational.  The scaled
53-bit mantissa is rounded to an integer; the exponent estimate is
corrected so that the mantissa magnitude lies in the binade
from 2 to the 52 up to 2 to the 53.  Subnormal underflow and overflow
lie far outside the range reachable by the percentage computation and
are not modeled. -/
def toDouble (q : ℚ) : ℚ :=
  if q = 0 then 0
  else
    let e0 : ℤ := dblExpGuess q - 52
    let e : ℤ :=
      if |q| < qpow2 (e0 + 52) then e0 - 1
      else if qpow2 (e0 + 53) ≤ |q| then e0 + 1
      else e0
    (roundNearestEven (q / qpow2 e) : ℚ) * qpow2 e

/-- JavaScript number division: exact quotient rounded to binary64. -/
def jsDiv (a b : ℚ) : ℚ := toDouble (a / b)

/-- JavaScript number multiplication: exact product rounded to binary64. -/
def jsMul (a b : ℚ) : ℚ := toDouble (a * b)

/-- ECMA-262 Number.prototype.toFixed with one fraction digit, as an
integer count of tenths: the integer n minimizing the distance from
n divided by 10 to the value, choosing the larger n on ties. -/
def ecmaToFixedTenths (x : ℚ) : ℤ :=
  ⌊x * 10⌋ + (if (1 : ℚ)/2 ≤ x * 10 - ⌊x * 10⌋ then 1 else 0)

/-- Decimal string for a nonnegative number of tenths, in the shape
toFixed(1) produces: integer part, a dot, one digit. -/
def fixed1String (t : ℤ) : String :=
  toString (t.toNat / 10) ++ "." ++ toString (t.toNat % 10)

/-- The percentage string of server.js line 281: size divided by total
times 100 in binary64 arithmetic, then toFixed(1). -/
def percentageString (size total : Nat) : String :=
  fixed1String (ecmaToFixedTenths (jsMul (jsDiv (size : ℚ) (total : ℚ)) 100))

/-- Language node of a language edge: name and color. -/
structure LanguageNode where
  name : String
  color : String
deriving DecidableEq

/-- Language edge of a repository: byte size plus the language node. -/
structure LanguageEdge where
  size : Nat
  node : LanguageNode
deriving DecidableEq

/-- The languages object of a repository node; its edges list may be
absent. -/
structure RepoLanguages where
  edges : Option (List LanguageEdge)
deriving DecidableEq

/-- One repository node of the top-languages query. -/
structure RepositoryNode where
  name : String
  languages : Option RepoLanguages
deriving DecidableEq

/-- The repositories object of the top-languages query. -/
structure TopLangRepositories where
  nodes : Option (List RepositoryNode)
deriving DecidableEq

/-- The user object of the top-languages query. -/
structure TopLangUser where
  repositories : Option TopLangRepositories
deriving DecidableEq

/-- The data object of the top-languages query. -/
structure TopLangData where
  user : Option TopLangUser
deriving DecidableEq

/-- Parsed body of the upstream response for the top-languages route. -/
structure TopLangBody where
  errors : Option (List GqlError)
  data : Option TopLangData
deriving DecidableEq

/-- Accumulated per-language record held in the languages object:
running size and the color recorded when the key was created. -/
structure LangAcc where
  size : Nat
  color : String
deriving DecidableEq

/-- Own-property read languages[name] on the insertion-ordered object:
the own entries only, not the prototype chain. -/
def findAcc : List (String × LangAcc) → String → Option LangAcc
  | [], _ => none
  | (k, a) :: rest, name => if k = name then some a else findAcc rest name

/-- Property names a plain object literal inherits from Object.prototype
in Node: reading languages[name] for one of these yields the inherited
member (a function, or for the proto accessor the prototype object),
which is truthy. -/
def objectPrototypeMemberNames : List String :=
  ["constructor", "hasOwnProperty", "isPrototypeOf", "propertyIsEnumerable",
   "toLocaleString", "toString", "valueOf", "__proto__", "__defineGetter__",
   "__defineSetter__", "__lookupGetter__", "__lookupSetter__"]

/-- Whether languages[name] hits an inherited Object.prototype member. -/
def isObjectPrototypeMember (s : String) : Bool :=
  objectPrototypeMemberNames.contains s

/-- Update of the own entries by one edge whose name does not shadow an
Object.prototype member (server.js lines 261-265): the check
!languages[name] sees undefined, so the key is created with the edge
color at the end of the property order when absent, and the edge size is
added to its size. -/
def addEdge (langs : List (String × LangAcc)) (name color : String) (size : Nat) :
    List (String × LangAcc) :=
  match langs with
  | [] => [(name, ⟨size, color⟩)]
  | (k, a) :: rest =>
    if k = name then (k, ⟨a.size + size, a.color⟩) :: rest
    else (k, a) :: addEdge rest name color size

/-- The edge step restricted to the own-entry update plus the grand
total (the else path of the truthiness check). -/
def ownStep (st : List (String × LangAcc) × Nat) (e : LanguageEdge) :
    List (String × LangAcc) × Nat :=
  (addEdge st.1 e.node.name e.node.color e.size, st.2 + e.size)

/-- One step of the inner forEach over edges (server.js lines 258-266).
For a name that shadows an Object.prototype member, languages[name] is
the inherited member and is truthy, so !languages[name] is false and no
own entry is ever created; the subsequent languages[name].size += size
writes onto the inherited object, which Object.keys never reports, so
the own entries are unchanged.  Every edge adds its size to totalSize. -/
def edgeStep (st : List (String × LangAcc) × Nat) (e : LanguageEdge) :
    List (String × LangAcc) × Nat :=
  if isObjectPrototypeMember e.node.name then (st.1, st.2 + e.size)
  else ownStep st e

/-- One step of the outer forEach over repositories (lines 255-269),
guarded by the optional-chain check repo.languages?.edges. -/
def repoStep (st : List (String × LangAcc) × Nat) (repo : RepositoryNode) :
    List (String × LangAcc) × Nat :=
  match repo.languages with
  | none => st
  | some langObj =>
    match langObj.edges with
    | none => st
    | some edges => edges.foldl edgeStep st

/-- The whole aggregation loop of lines 252-269: empty object and zero
total, then both forEach loops. -/
def aggregateLanguages (repos : List RepositoryNode) : List (String × LangAcc) × Nat :=
  repos.foldl repoStep ([], 0)

/-- Canonical-array-index test of ECMA-262: a string of decimal digits
without a leading zero (except the string 0 itself) whose numeric value
is below 2 to the 32 minus 1.  Returns that value. -/
def arrayIndexValue (s : String) : Option Nat :=
  match s.data with
  | [] => none
  | c :: cs =>
    if (c :: cs).all Char.isDigit && (decide (c = '0') → cs.isEmpty) then
      let n := (c :: cs).foldl (fun acc ch => 10 * acc + (ch.toNat - 48)) 0
      if n < 4294967295 then some n else none
    else none

/-- Numeric sort key used to order array-index properties. -/
def indexKeyValue (p : String × LangAcc) : Nat := (arrayIndexValue p.1).getD 0

/-- Stable insertion into a list sorted ascending by array-index value. -/
def insertAscByIndex (x : String × LangAcc) :
    List (String × LangAcc) → List (String × LangAcc)
  | [] => [x]
  | y :: ys =>
    if indexKeyValue x ≤ indexKeyValue y then x :: y :: ys
    else y :: insertAscByIndex x ys

/-- Stable sort ascending by array-index value. -/
def sortAscByIndex : List (String × LangAcc) → List (String × LangAcc)
  | [] => []
  | x :: xs => insertAscByIndex x (sortAscByIndex xs)

/-- Property order that Object.keys reports for a plain object
(ECMA-262 OrdinaryOwnPropertyKeys): array-index keys first in ascending
numeric order, then the remaining string keys in insertion order. -/
def objectEntriesOrdered (langs : List (String × LangAcc)) : List (String × LangAcc) :=
  sortAscByIndex (langs.filter (fun p => (arrayIndexValue p.1).isSome)) ++
    langs.filter (fun p => !(arrayIndexValue p.1).isSome)

/-- One element of the emitted top-languages array (lines 277-282). -/
structure LangEntry where
  name : String
  color : String
  size : Nat
  percentage : String
deriving DecidableEq

/-- The object built for one language name (lines 277-282). -/
def entryOf (total : Nat) (p : String × LangAcc) : LangEntry :=
  ⟨p.1, p.2.color, p.2.size, percentageString p.2.size total⟩

/-- Stable insertion into a list sorted descending by size: the inserted
element goes before every element of size at most its own, matching the
comparator (a, b) => b.size - a.size under a stable sort when the
inserted element precedes the list elements in the unsorted input. -/
def insertDescBySize (x : LangEntry) : List LangEntry → List LangEntry
  | [] => [x]
  | y :: ys =>
    if y.size ≤ x.size then x :: y :: ys
    else y :: insertDescBySize x ys

/-- Stable descending sort by size (line 285); ES2019 requires
Array.prototype.sort to be stable, and every stable sort agrees, so
insertion sort is a faithful embedding. -/
def sortDescBySize : List LangEntry → List LangEntry
  | [] => []
  | x :: xs => insertDescBySize x (sortDescBySize xs)

/-- The emitted array for a given repository-node list (lines 252-287):
aggregate, return an empty list when the grand total is zero, otherwise
build one entry per key in object property order and sort by size
descending. -/
def topLanguagesArray (repos : List RepositoryNode) : List LangEntry :=
  let st := aggregateLanguages repos
  if st.2 = 0 then []
  else sortDescBySize ((objectEntriesOrdered st.1).map (entryOf st.2))

/-- Response of the top-languages handler. -/
inductive TopLangResult where
  | ok (entries : List LangEntry) : TopLangResult
  | notFound (rawResponse : TopLangBody) : TopLangResult
  | caughtError (message : String) : TopLangResult
deriving DecidableEq

/-- HTTP status code of each top-languages response. -/
def TopLangResult.statusCode : TopLangResult → Nat
  | .ok _ => 200
  | .notFound _ => 404
  | .caughtError _ => 500

/-- Top-languages handler (server.js lines 200-292). -/
def topLanguagesHandler (resp : UpstreamResponse TopLangBody) : TopLangResult :=
  match resp.body with
  | .error m => .caughtError m
  | .ok data =>
    match data.errors with
    | some errs => .caughtError (gqlThrownMessage errs)
    | none =>
      match ((data.data.bind (·.user)).bind (·.repositories)).bind (·.nodes) with
      | none => .notFound data
      | some nodes => .ok (topLanguagesArray nodes)

/-- Primary language of a pinned repository. -/
structure PrimaryLanguage where
  name : String
  color : String
deriving DecidableEq

/-- One pinned repository node. -/
structure PinnedRepo where
  name : String
  description : Option String
  url : String
  stargazerCount : Nat
  forkCount : Nat
  primaryLanguage : Option PrimaryLanguage
  updatedAt : String
deriving DecidableEq

/-- The pinnedItems object of the pinned query. -/
structure PinnedItems where
  nodes : Option (List PinnedRepo)
deriving DecidableEq

/-- The user object of the pinned query. -/
structure PinnedUser where
  pinnedItems : Option PinnedItems
deriving DecidableEq

/-- The data object of the pinned query. -/
structure PinnedData where
  user : Option PinnedUser
deriving DecidableEq

/-- Parsed body of the upstream response for the pinned route. -/
structure PinnedBody where
  errors : Option (List GqlError)
  data : Option PinnedData
deriving DecidableEq

/-- Response of the pinned handler. -/
inductive PinnedResult where
  | ok (nodes : List PinnedRepo) : PinnedResult
  | notFound (rawResponse : PinnedBody) : PinnedResult
  | caughtError (message : String) : PinnedResult
deriving DecidableEq

/-- HTTP status code of each pinned-handler response. -/
def PinnedResult.statusCode : PinnedResult → Nat
  | .ok _ => 200
  | .notFound _ => 404
  | .caughtError _ => 500

/-- Pinned-repositories handler (server.js lines 139-197): same error
handling as the contributions route, and the node list is returned
unchanged. -/
def pinnedHandler (resp : UpstreamResponse PinnedBody) : PinnedResult :=
  match resp.body with
  | .error m => .caughtError m
  | .ok data =>
    match data.errors with
    | some errs => .caughtError (gqlThrownMessage errs)
    | none =>
      match ((data.data.bind (·.user)).bind (·.pinnedItems)).bind (·.nodes) with
      | none => .notFound data
      | some nodes => .ok nodes

/-- Repository reference inside the detailed-activity query. -/
structure RepoRef where
  name : String
  url : String
deriving DecidableEq

/-- Contribution counter of the detailed-activity query. -/
structure ContributionsCount where
  totalCount : Nat
deriving DecidableEq

/-- Per-repository contribution record of the detailed-activity query. -/
structure RepoContributions where
  repository : RepoRef
  contributions : ContributionsCount
deriving DecidableEq

/-- The contributionsCollection object of the detailed-activity query. -/
structure DetailedCollection where
  commitContributionsByRepository : List RepoContributions
  pullRequestContributionsByRepository : List RepoContributions
  issueContributionsByRepository : List RepoContributions
deriving DecidableEq

/-- The user object of the detailed-activity query. -/
structure DetailedUser where
  contributionsCollection : Option DetailedCollection
deriving DecidableEq

/-- The data object of the detailed-activity query. -/
structure DetailedData where
  user : Option DetailedUser
deriving DecidableEq

/-- Parsed body of the upstream response for the detailed-activity
route. -/
structure DetailedBody where
  errors : Option (List GqlError)
  data : Option DetailedData
deriving DecidableEq

/-- Response of the detailed-activity handler. -/
inductive DetailedResult where
  | ok (collection : DetailedCollection) : DetailedResult
  | notFound (rawResponse : DetailedBody) : DetailedResult
  | caughtError (message : String) : DetailedResult
deriving DecidableEq

/-- HTTP status code of each detailed-activity response. -/
def DetailedResult.statusCode : DetailedResult → Nat
  | .ok _ => 200
  | .notFound _ => 404
  | .caughtError _ => 500

/-- Detailed-activity handler (server.js lines 295-366): same error
handling as the contributions route, and the contributionsCollection
object is returned unchanged. -/
def detailedActivityHandler (resp : UpstreamResponse DetailedBody) : DetailedResult :=
  match resp.body with
  | .error m => .caughtError m
  | .ok data =>
    match data.errors with
    | some errs => .caughtError (gqlThrownMessage errs)
    | none =>
      match (data.data.bind (·.user)).bind (·.contributionsCollection) with
      | none => .notFound data
      | some coll => .ok coll

/-- Which handler ends up answering a request, per path.  A request path
is modeled as its list of (nonempty, slash-free) segments. -/
inductive RouteResponse where
  | liveness : RouteResponse
  | genericCall (githubPath : String) : RouteResponse
  | contributionsRoute (username : String) : RouteResponse
  | pinnedRoute (username : String) : RouteResponse
  | topLanguagesRoute (username : String) : RouteResponse
  | detailedActivityRoute (username : String) : RouteResponse
  | invalidEndpoint400 : RouteResponse
  | expressNotFound : RouteResponse
deriving DecidableEq

/-- Match of the Express pattern /api/github/* : at least one segment
after the api/github base, captured joined by slashes as req.params[0]. -/
def genericMatch : List String → Option String
  | a :: b :: s :: rest =>
    if a = "api" ∧ b = "github" then some (String.intercalate "/" (s :: rest))
    else none
  | _ => none

/-- Routes registered after the generic one, in registration order: the
four /api/github/users/:username routes (distinct last segments, so the
order among them is immaterial), the literal /detailed-activity route
answering a fixed 400, and the Express default not-found fallback. -/
def dispatchAfterGeneric : List String → RouteResponse
  | [a] => if a = "detailed-activity" then .invalidEndpoint400 else .expressNotFound
  | [a, b, c, u, tail] =>
    if a = "api" ∧ b = "github" ∧ c = "users" ∧ u ≠ "" then
      if tail = "contributions" then .contributionsRoute u
      else if tail = "pinned" then .pinnedRoute u
      else if tail = "top-languages" then .topLanguagesRoute u
      else if tail = "detailed-activity" then .detailedActivityRoute u
      else .expressNotFound
    else .expressNotFound
  | _ => .expressNotFound

/-- Full route dispatch in registration order: the liveness route, then
the generic /api/github/* route (which defers via next() exactly when its
exclusion check fires), then the remaining routes. -/
def dispatchPath (segs : List String) : RouteResponse :=
  if segs = [] then .liveness
  else
    match genericMatch segs with
    | some p => if skipsToNext p then dispatchAfterGeneric segs else .genericCall p
    | none => dispatchAfterGeneric segs

/-- The language edges a repository node contributes to the aggregation:
its edges list when the optional chain repo.languages?.edges yields one,
and nothing otherwise. -/
def repoEdges (r : RepositoryNode) : List LanguageEdge :=
  match r.languages with
  | none => []
  | some langObj => langObj.edges.getD []

/-- All language edges of a repository-node list, in visit order. -/
def inputEdges (repos : List RepositoryNode) : List LanguageEdge :=
  repos.flatMap repoEdges

/-- The input edges whose names do not shadow an Object.prototype
member: exactly the edges that can reach the own entries of the
languages object. -/
def ownInputEdges (repos : List RepositoryNode) : List LanguageEdge :=
  (inputEdges repos).filter (fun e => !isObjectPrototypeMember e.node.name)

/-- The languages object after aggregation. -/
def langsObject (repos : List RepositoryNode) : List (String × LangAcc) :=
  (aggregateLanguages repos).1

/-- The grand total after aggregation. -/
def grandTotal (repos : List RepositoryNode) : Nat :=
  (aggregateLanguages repos).2

/-- Sum of the sizes of all edges carrying a given language name. -/
def sizeSumFor (es : List LanguageEdge) (name : String) : Nat :=
  ((es.filter (fun e => e.node.name = name)).map (·.size)).sum

/-- Color of the first edge carrying a given language name, if any. -/
def firstColorFor (es : List LanguageEdge) (name : String) : Option String :=
  (es.find? (fun e => e.node.name = name)).map (·.node.color)

/-- Key list of the languages object. -/
def keysOf (l : List (String × LangAcc)) : List String := l.map Prod.fst

/-- Sum of the accumulated sizes stored in the languages object. -/
def accSizesSum (l : List (String × LangAcc)) : Nat :=
  (l.map (fun p => p.2.size)).sum

/-- Language names in order of first encounter, skipping names already
seen. -/
def firstEncounterAux (seen : List String) : List LanguageEdge → List String
  | [] => []
  | e :: es =>
    if e.node.name ∈ seen then firstEncounterAux seen es
    else e.node.name :: firstEncounterAux (seen ++ [e.node.name]) es

/-- Language names in order of first encounter over an edge list. -/
def firstEncounterNames (es : List LanguageEdge) : List String :=
  firstEncounterAux [] es

/-- Modelled from the spec: rounding half-away-from-zero to one decimal
place, as an integer count of tenths of the exact rational input. -/
def roundHalfAwayTenths (x : ℚ) : ℤ :=
  if 0 ≤ x then ⌊x * 10 + 1/2⌋ else -⌊-x * 10 + 1/2⌋

/-- Repository list of the section 8 top-languages counterexample to the
half-away-from-zero rounding claim: sizes 23 and 57 give a grand total
of 80, and 23 of 80 is exactly 28.75 percent. -/
def roundingExample : List RepositoryNode :=
  [⟨"repo", some ⟨some [⟨23, ⟨"A", "#a1"⟩⟩, ⟨57, ⟨"B", "#b2"⟩⟩]⟩⟩]

/-- Repository list whose language names are the numeric strings 1 and 0
with equal sizes: a JavaScript object reorders such keys numerically, so
the emitted tie order differs from first-encounter order. -/
def numericNamesExample : List RepositoryNode :=
  [⟨"repo", some ⟨some [⟨5, ⟨"1", "#c1"⟩⟩, ⟨5, ⟨"0", "#c0"⟩⟩]⟩⟩]

/-- Repository list with a language named toString: the truthiness check
never creates an own entry for it, so its 7 bytes are counted in the
grand total but missing from the emitted entries. -/
def prototypeNameExample : List RepositoryNode :=
  [⟨"repo", some ⟨some [⟨7, ⟨"toString", "#t1"⟩⟩, ⟨5, ⟨"A", "#a1"⟩⟩]⟩⟩]

/-- Upstream calendar whose stored total (5) disagrees with the day
counts (3): the handler copies the total without validating it. -/
def inconsistentCalendar : ContributionCalendar :=
  ⟨5, [⟨[⟨"2024-01-01", 3, "#000"⟩]⟩]⟩

/-- The section 8 example calendar: total 2, one week with two days. -/
def exampleCalendar : ContributionCalendar :=
  ⟨2, [⟨[⟨"2024-01-01", 1, "#000"⟩, ⟨"2024-01-02", 1, "#111"⟩]⟩]⟩

/-- Contributions body wrapping a calendar with no errors field. -/
def calendarBody (cal : ContributionCalendar) : ContributionsBody :=
  ⟨none, some ⟨some ⟨some ⟨some cal⟩⟩⟩⟩

/-! ## Theorems -/

/-- Correctness of the embedded String.prototype.includes: it decides
contiguous-substring containment. -/
theorem jsIncludes_iff (needle hay : List Char) :
    jsIncludes needle hay = true ↔ needle <:+: hay := by
  induction hay with
  | nil => simp [jsIncludes, List.isEmpty_iff, List.infix_nil]
  | cons c rest ih => simp [jsIncludes, ih, List.infix_cons_iff]

/-- Folding with one push per element appends the mapped list. -/
theorem foldl_push_eq_append {α β : Type} (f : α → β) :
    ∀ (l : List α) (acc : List β),
      l.foldl (fun a x => a ++ [f x]) acc = acc ++ l.map f := by
  intro l
  induction l with
  | nil => simp
  | cons x xs ih => intro acc; simp [ih, List.append_assoc]

/-- Folding with one block-append per element appends the flatMap. -/
theorem foldl_append_eq_flatMap {α β : Type} (g : α → List β) :
    ∀ (l : List α) (acc : List β),
      l.foldl (fun a x => a ++ g x) acc = acc ++ l.flatMap g := by
  intro l
  induction l with
  | nil => simp
  | cons x xs ih => intro acc; simp [ih, List.append_assoc]

/-- The push-style flattening loop produces exactly the specified
flattened day sequence. -/
theorem flattenCalendar_eq (cal : ContributionCalendar) :
    flattenCalendar cal = calendarDays cal := by
  have h : (fun (acc : List FlatContribution) (week : ContributionWeek) =>
      week.contributionDays.foldl
        (fun acc2 day => acc2 ++ [⟨day.date, day.contributionCount, day.color⟩]) acc) =
      (fun acc week => acc ++ week.contributionDays.map
        (fun day => ⟨day.date, day.contributionCount, day.color⟩)) := by
    funext acc week
    exact foldl_push_eq_append _ _ _
  unfold flattenCalendar calendarDays
  rw [h, foldl_append_eq_flatMap, List.nil_append, List.map_flatMap]

/-- A repository step is the edge fold over the edges the repository
contributes. -/
theorem repoStep_eq_foldl (st : List (String × LangAcc) × Nat) (r : RepositoryNode) :
    repoStep st r = (repoEdges r).foldl edgeStep st := by
  rcases r with ⟨name, _ | ⟨_ | es⟩⟩
  · rfl
  · rfl
  · rfl

/-- The nested repository/edge loops equal one fold over all input
edges. -/
theorem aggregate_eq_foldl (repos : List RepositoryNode) :
    aggregateLanguages repos = (inputEdges repos).foldl edgeStep ([], 0) := by
  have h : repoStep = fun st r => (repoEdges r).foldl edgeStep st := by
    funext st r
    exact repoStep_eq_foldl st r
  unfold aggregateLanguages inputEdges
  rw [h, List.flatMap_def, List.foldl_flatten, List.foldl_map]

/-- The grand-total component of the edge fold adds up all edge sizes. -/
theorem foldl_edgeStep_total (es : List LanguageEdge) :
    ∀ st : List (String × LangAcc) × Nat,
      (es.foldl edgeStep st).2 = st.2 + (es.map (·.size)).sum := by
  induction es with
  | nil => intro st; simp
  | cons e es ih =>
    intro st
    rw [List.foldl_cons, ih, List.map_cons, List.sum_cons]
    have h2 : (edgeStep st e).2 = st.2 + e.size := by
      unfold edgeStep ownStep
      split_ifs <;> rfl
    rw [h2]
    omega

/-- Reading a fresh key after addEdge. -/
theorem findAcc_addEdge_of_none {l : List (String × LangAcc)} {n : String}
    (h : findAcc l n = none) (c : String) (s : Nat) :
    findAcc (addEdge l n c s) n = some ⟨s, c⟩ := by
  induction l with
  | nil => simp [addEdge, findAcc]
  | cons p rest ih =>
    by_cases hk : p.1 = n
    · simp [findAcc, hk] at h
    · simp [findAcc, addEdge, hk] at h ⊢
      exact ih h

/-- Reading an existing key after addEdge. -/
theorem findAcc_addEdge_of_some {l : List (String × LangAcc)} {n : String} {a : LangAcc}
    (h : findAcc l n = some a) (c : String) (s : Nat) :
    findAcc (addEdge l n c s) n = some ⟨a.size + s, a.color⟩ := by
  induction l with
  | nil => simp [findAcc] at h
  | cons p rest ih =>
    by_cases hk : p.1 = n
    · simp [findAcc, hk] at h
      subst h
      simp [addEdge, findAcc, hk]
    · simp [findAcc, addEdge, hk] at h ⊢
      exact ih h

/-- Reading any other key after addEdge. -/
theorem findAcc_addEdge_ne (l : List (String × LangAcc)) {m n : String}
    (h : m ≠ n) (c : String) (s : Nat) :
    findAcc (addEdge l n c s) m = findAcc l m := by
  induction l with
  | nil => simp [addEdge, findAcc, Ne.symm h]
  | cons p rest ih =>
    rcases p with ⟨k, a⟩
    by_cases hk : k = n
    · subst hk
      simp [addEdge, findAcc, Ne.symm h]
    · simp [addEdge, findAcc, hk]
      by_cases hm : k = m
      · simp [hm]
      · simp [hm, ih]

/-- Unfolding of the per-name size sum over a cons cell. -/
theorem sizeSumFor_cons (e : LanguageEdge) (es : List LanguageEdge) (name : String) :
    sizeSumFor (e :: es) name =
      if e.node.name = name then e.size + sizeSumFor es name else sizeSumFor es name := by
  unfold sizeSumFor
  rw [List.filter_cons]
  by_cases h : e.node.name = name <;> simp [h]

/-- Unfolding of the first-color lookup over a cons cell. -/
theorem firstColorFor_cons (e : LanguageEdge) (es : List LanguageEdge) (name : String) :
    firstColorFor (e :: es) name =
      if e.node.name = name then some e.node.color else firstColorFor es name := by
  unfold firstColorFor
  by_cases h : e.node.name = name <;> simp [h]

/-- Characterization of one languages-object entry after folding an edge
list: an already-present key gains the per-name size sum of the list and
keeps its color; a fresh key appears exactly when the list carries the
name, with the per-name size sum and the first color carried for it. -/
theorem findAcc_foldl (es : List LanguageEdge) :
    ∀ (st : List (String × LangAcc) × Nat) (name : String),
      findAcc (es.foldl ownStep st).1 name =
        match findAcc st.1 name with
        | some a => some ⟨a.size + sizeSumFor es name, a.color⟩
        | none =>
          match firstColorFor es name with
          | some c => some ⟨sizeSumFor es name, c⟩
          | none => none := by
  induction es with
  | nil =>
    intro st name
    simp only [List.foldl_nil, sizeSumFor, firstColorFor, List.filter_nil, List.map_nil,
      List.sum_nil, List.find?_nil, Option.map_none]
    cases h : findAcc st.1 name with
    | none => rfl
    | some a => cases a with | mk sz co => simp
  | cons e es ih =>
    intro st name
    rw [List.foldl_cons, ih, sizeSumFor_cons, firstColorFor_cons]
    by_cases hn : e.node.name = name
    · simp only [if_pos hn]
      cases hst : findAcc st.1 name with
      | none =>
        rw [show (ownStep st e).1 = addEdge st.1 e.node.name e.node.color e.size from rfl,
          hn, findAcc_addEdge_of_none hst]
      | some a =>
        rw [show (ownStep st e).1 = addEdge st.1 e.node.name e.node.color e.size from rfl,
          hn, findAcc_addEdge_of_some hst]
        simp [Nat.add_assoc]
    · simp only [if_neg hn]
      rw [show (ownStep st e).1 = addEdge st.1 e.node.name e.node.color e.size from rfl,
        findAcc_addEdge_ne st.1 (fun hh => hn hh.symm)]

/-- A lookup misses exactly when the key is not present. -/
theorem findAcc_eq_none_iff (l : List (String × LangAcc)) (n : String) :
    findAcc l n = none ↔ n ∉ keysOf l := by
  induction l with
  | nil => simp [findAcc, keysOf]
  | cons p rest ih =>
    rcases p with ⟨k, a⟩
    by_cases h : k = n
    · subst h
      simp [findAcc, keysOf]
    · simp [findAcc, keysOf, h, Ne.symm h] at ih ⊢
      exact ih

/-- Keys after adding a fresh name: appended at the end. -/
theorem keysOf_addEdge_of_none {l : List (String × LangAcc)} {n : String}
    (h : findAcc l n = none) (c : String) (s : Nat) :
    keysOf (addEdge l n c s) = keysOf l ++ [n] := by
  induction l with
  | nil => simp [addEdge, keysOf]
  | cons p rest ih =>
    rcases p with ⟨k, a⟩
    by_cases hk : k = n
    · simp [findAcc, hk] at h
    · simp [findAcc, hk] at h
      simp [addEdge, keysOf, hk] at ih ⊢
      exact ih h

/-- Keys after bumping an existing name: unchanged. -/
theorem keysOf_addEdge_of_some {l : List (String × LangAcc)} {n : String} {a : LangAcc}
    (h : findAcc l n = some a) (c : String) (s : Nat) :
    keysOf (addEdge l n c s) = keysOf l := by
  induction l with
  | nil => simp [findAcc] at h
  | cons p rest ih =>
    rcases p with ⟨k, b⟩
    by_cases hk : k = n
    · simp [addEdge, keysOf, hk]
    · simp [findAcc, hk] at h
      simp [addEdge, keysOf, hk] at ih ⊢
      exact ih h

/-- addEdge preserves key distinctness. -/
theorem nodup_keysOf_addEdge {l : List (String × LangAcc)}
    (h : (keysOf l).Nodup) (n c : String) (s : Nat) :
    (keysOf (addEdge l n c s)).Nodup := by
  cases hf : findAcc l n with
  | none =>
    rw [keysOf_addEdge_of_none hf]
    have hn : n ∉ keysOf l := (findAcc_eq_none_iff l n).1 hf
    rw [List.nodup_append]
    refine ⟨h, List.nodup_singleton n, ?_⟩
    intro x hx hx1
    rw [List.mem_singleton] at hx1
    subst hx1
    exact hn hx
  | some a =>
    rw [keysOf_addEdge_of_some hf]
    exact h

/-- The edge fold preserves key distinctness. -/
theorem nodup_keysOf_foldl (es : List LanguageEdge) :
    ∀ st : List (String × LangAcc) × Nat,
      (keysOf st.1).Nodup → (keysOf (es.foldl ownStep st).1).Nodup := by
  induction es with
  | nil => intro st h; simpa using h
  | cons e es ih =>
    intro st h
    rw [List.foldl_cons]
    exact ih (ownStep st e) (nodup_keysOf_addEdge h _ _ _)

/-- Membership of a pair determines the lookup when keys are distinct. -/
theorem findAcc_of_mem {l : List (String × LangAcc)} {n : String} {a : LangAcc}
    (hnd : (keysOf l).Nodup) (hmem : (n, a) ∈ l) : findAcc l n = some a := by
  induction l with
  | nil => simp at hmem
  | cons p rest ih =>
    rcases p with ⟨k, b⟩
    have hcons : (k :: keysOf rest).Nodup := by simpa [keysOf] using hnd
    have hnotin : k ∉ keysOf rest := (List.nodup_cons.1 hcons).1
    have hndrest : (keysOf rest).Nodup := (List.nodup_cons.1 hcons).2
    rcases List.mem_cons.1 hmem with heq | hrest
    · cases heq
      simp [findAcc]
    · have hk : n ∈ keysOf rest := by
        have : n ∈ rest.map Prod.fst := List.mem_map.2 ⟨(n, a), hrest, rfl⟩
        simpa [keysOf] using this
      have hkn : k ≠ n := fun hkeq => hnotin (hkeq ▸ hk)
      simp [findAcc, hkn]
      exact ih hndrest hrest

/-- addEdge adds the edge size to the stored-size sum. -/
theorem accSizesSum_addEdge (l : List (String × LangAcc)) (n c : String) (s : Nat) :
    accSizesSum (addEdge l n c s) = accSizesSum l + s := by
  induction l with
  | nil => simp [addEdge, accSizesSum]
  | cons p rest ih =>
    rcases p with ⟨k, a⟩
    by_cases hk : k = n
    · simp [addEdge, accSizesSum, hk]
      omega
    · simp [addEdge, accSizesSum, hk] at ih ⊢
      omega

/-- The stored-size sum after the edge fold adds up all edge sizes. -/
theorem accSizesSum_foldl (es : List LanguageEdge) :
    ∀ st : List (String × LangAcc) × Nat,
      accSizesSum (es.foldl ownStep st).1 = accSizesSum st.1 + (es.map (·.size)).sum := by
  induction es with
  | nil => intro st; simp
  | cons e es ih =>
    intro st
    rw [List.foldl_cons, ih]
    show accSizesSum (addEdge st.1 e.node.name e.node.color e.size) + _ = _
    rw [accSizesSum_addEdge]
    simp
    omega

/-- Keys produced by the edge fold: the starting keys followed by the
fresh names in first-encounter order. -/
theorem keysOf_foldl (es : List LanguageEdge) :
    ∀ st : List (String × LangAcc) × Nat,
      keysOf (es.foldl ownStep st).1 =
        keysOf st.1 ++ firstEncounterAux (keysOf st.1) es := by
  induction es with
  | nil => intro st; simp [firstEncounterAux]
  | cons e es ih =>
    intro st
    rw [List.foldl_cons, ih]
    cases hf : findAcc st.1 e.node.name with
    | none =>
      have hnot : e.node.name ∉ keysOf st.1 := (findAcc_eq_none_iff _ _).1 hf
      have hkeys : keysOf (ownStep st e).1 = keysOf st.1 ++ [e.node.name] :=
        keysOf_addEdge_of_none hf _ _
      rw [hkeys]
      simp only [firstEncounterAux, if_neg hnot]
      simp [List.append_assoc]
    | some a =>
      have hmem : e.node.name ∈ keysOf st.1 := by
        by_contra hcon
        rw [← findAcc_eq_none_iff] at hcon
        rw [hcon] at hf
        cases hf
      have hkeys : keysOf (ownStep st e).1 = keysOf st.1 :=
        keysOf_addEdge_of_some hf _ _
      rw [hkeys]
      simp only [firstEncounterAux, if_pos hmem]

/-- Stable descending insertion permutes a cons. -/
theorem insertDescBySize_perm (x : LangEntry) (l : List LangEntry) :
    List.Perm (insertDescBySize x l) (x :: l) := by
  induction l with
  | nil => exact List.Perm.refl _
  | cons y ys ih =>
    by_cases h : y.size ≤ x.size
    · simp [insertDescBySize, h]
    · simp only [insertDescBySize, if_neg h]
      exact (ih.cons y).trans (List.Perm.swap x y ys)

/-- The stable descending sort permutes its input. -/
theorem sortDescBySize_perm (l : List LangEntry) : List.Perm (sortDescBySize l) l := by
  induction l with
  | nil => exact List.Perm.refl _
  | cons x xs ih =>
    exact (insertDescBySize_perm x (sortDescBySize xs)).trans (ih.cons x)

/-- Stable descending insertion preserves descending sortedness. -/
theorem insertDescBySize_sorted {l : List LangEntry}
    (hl : l.Pairwise (fun a b => b.size ≤ a.size)) (x : LangEntry) :
    (insertDescBySize x l).Pairwise (fun a b => b.size ≤ a.size) := by
  induction l with
  | nil => simp [insertDescBySize]
  | cons y ys ih =>
    rw [List.pairwise_cons] at hl
    by_cases h : y.size ≤ x.size
    · simp only [insertDescBySize, if_pos h]
      rw [List.pairwise_cons]
      constructor
      · intro b hb
        rcases List.mem_cons.1 hb with hb | hb
        · exact hb ▸ h
        · exact Nat.le_trans (hl.1 b hb) h
      · rw [List.pairwise_cons]
        exact hl
    · simp only [insertDescBySize, if_neg h]
      rw [List.pairwise_cons]
      constructor
      · intro b hb
        rcases List.mem_cons.1 ((insertDescBySize_perm x ys).mem_iff.1 hb) with hb | hb
        · cases hb
          exact Nat.le_of_lt (Nat.lt_of_not_le h)
        · exact hl.1 b hb
      · exact ih hl.2

/-- The emitted list is sorted descending by size. -/
theorem sortDescBySize_sorted (l : List LangEntry) :
    (sortDescBySize l).Pairwise (fun a b => b.size ≤ a.size) := by
  induction l with
  | nil => simp [sortDescBySize]
  | cons x xs ih => exact insertDescBySize_sorted ih x

/-- Inserting an element of the filtered size puts it in front of the
equal-size elements it was inserted before. -/
theorem filter_insertDescBySize_pos {x : LangEntry} {s : Nat} (hx : x.size = s)
    (l : List LangEntry) :
    (insertDescBySize x l).filter (fun e => e.size = s) =
      x :: l.filter (fun e => e.size = s) := by
  induction l with
  | nil => simp [insertDescBySize, List.filter_cons, hx]
  | cons y ys ih =>
    by_cases h : y.size ≤ x.size
    · simp only [insertDescBySize, if_pos h]
      rw [List.filter_cons, List.filter_cons]
      by_cases hy : y.size = s <;> simp [hx, hy]
    · have hy : ¬ y.size = s := by omega
      simp only [insertDescBySize, if_neg h]
      rw [List.filter_cons, List.filter_cons]
      simpa [hy] using ih

/-- Inserting an element of a different size leaves the filter alone. -/
theorem filter_insertDescBySize_neg {x : LangEntry} {s : Nat} (hx : ¬ x.size = s)
    (l : List LangEntry) :
    (insertDescBySize x l).filter (fun e => e.size = s) =
      l.filter (fun e => e.size = s) := by
  induction l with
  | nil => simp [insertDescBySize, List.filter_cons, hx]
  | cons y ys ih =>
    by_cases h : y.size ≤ x.size
    · simp [insertDescBySize, h, List.filter_cons, hx]
    · simp only [insertDescBySize, if_neg h]
      rw [List.filter_cons, List.filter_cons]
      by_cases hy : y.size = s <;> simp [hy, ih]

/-- Stability of the descending sort: elements of any fixed size keep
their relative order. -/
theorem filter_sortDescBySize (l : List LangEntry) (s : Nat) :
    (sortDescBySize l).filter (fun e => e.size = s) =
      l.filter (fun e => e.size = s) := by
  induction l with
  | nil => rfl
  | cons x xs ih =>
    by_cases hx : x.size = s
    · rw [show sortDescBySize (x :: xs) = insertDescBySize x (sortDescBySize xs) from rfl,
        filter_insertDescBySize_pos hx, ih, List.filter_cons]
      simp [hx]
    · rw [show sortDescBySize (x :: xs) = insertDescBySize x (sortDescBySize xs) from rfl,
        filter_insertDescBySize_neg hx, ih, List.filter_cons]
      simp [hx]

/-- Ascending index insertion permutes a cons. -/
theorem insertAscByIndex_perm (x : String × LangAcc) (l : List (String × LangAcc)) :
    List.Perm (insertAscByIndex x l) (x :: l) := by
  induction l with
  | nil => exact List.Perm.refl _
  | cons y ys ih =>
    by_cases h : indexKeyValue x ≤ indexKeyValue y
    · simp [insertAscByIndex, h]
    · simp only [insertAscByIndex, if_neg h]
      exact (ih.cons y).trans (List.Perm.swap x y ys)

/-- The ascending index sort permutes its input. -/
theorem sortAscByIndex_perm (l : List (String × LangAcc)) : List.Perm (sortAscByIndex l) l := by
  induction l with
  | nil => exact List.Perm.refl _
  | cons x xs ih =>
    exact (insertAscByIndex_perm x (sortAscByIndex xs)).trans (ih.cons x)

/-- Object property order is a permutation of insertion order. -/
theorem objectEntriesOrdered_perm (l : List (String × LangAcc)) :
    List.Perm (objectEntriesOrdered l) l := by
  unfold objectEntriesOrdered
  exact ((sortAscByIndex_perm _).append_right _).trans
    (List.filter_append_perm (fun p => (arrayIndexValue p.1).isSome) l)

/-- When no key is an array index, object property order is exactly
insertion order. -/
theorem objectEntriesOrdered_of_no_index {l : List (String × LangAcc)}
    (h : ∀ p ∈ l, arrayIndexValue p.1 = none) : objectEntriesOrdered l = l := by
  unfold objectEntriesOrdered
  have h1 : l.filter (fun p => (arrayIndexValue p.1).isSome) = [] := by
    rw [List.filter_eq_nil_iff]
    intro p hp
    simp [h p hp]
  have h2 : l.filter (fun p => !(arrayIndexValue p.1).isSome) = l := by
    rw [List.filter_eq_self]
    intro p hp
    simp [h p hp]
  rw [h1, h2]
  rfl

/-- Rounding to nearest even never turns a nonnegative value negative. -/
theorem roundNearestEven_nonneg {q : ℚ} (h : 0 ≤ q) : 0 ≤ roundNearestEven q := by
  have hf : 0 ≤ ⌊q⌋ := Int.floor_nonneg.2 h
  simp only [roundNearestEven]
  split_ifs <;> omega

/-- Powers of two are positive in the rationals. -/
theorem qpow2_pos (e : ℤ) : 0 < qpow2 e := by
  unfold qpow2
  exact zpow_pos (by norm_num) e

/-- Rounding to binary64 never turns a nonnegative value negative. -/
theorem toDouble_nonneg {q : ℚ} (h : 0 ≤ q) : 0 ≤ toDouble q := by
  by_cases h0 : q = 0
  · simp [toDouble, h0]
  · have key : ∀ e : ℤ, 0 ≤ ((roundNearestEven (q / qpow2 e) : ℤ) : ℚ) * qpow2 e := by
      intro e
      refine mul_nonneg ?_ (le_of_lt (qpow2_pos e))
      exact_mod_cast roundNearestEven_nonneg (div_nonneg h (le_of_lt (qpow2_pos e)))
    simpa [toDouble, h0] using key _

/-- On nonnegative values, the toFixed tie rule (larger candidate on
ties) coincides with rounding half-away-from-zero. -/
theorem ecmaToFixed_eq_halfAway {x : ℚ} (hx : 0 ≤ x) :
    ecmaToFixedTenths x = roundHalfAwayTenths x := by
  unfold ecmaToFixedTenths roundHalfAwayTenths
  rw [if_pos hx]
  by_cases h : (1 : ℚ)/2 ≤ x * 10 - ⌊x * 10⌋
  · rw [if_pos h]
    have hfl : ⌊x * 10 + 1/2⌋ = ⌊x * 10⌋ + 1 := by
      rw [Int.floor_eq_iff]
      constructor
      · push_cast
        linarith
      · push_cast
        have hlt := Int.lt_floor_add_one (x * 10)
        linarith
    omega
  · rw [if_neg h]
    have hfl : ⌊x * 10 + 1/2⌋ = ⌊x * 10⌋ := by
      rw [Int.floor_eq_iff]
      constructor
      · linarith [Int.floor_le (x * 10)]
      · linarith
    omega

/-- The double value the percentage computation rounds is nonnegative. -/
theorem jsPercent_nonneg (size total : Nat) :
    0 ≤ jsMul (jsDiv (size : ℚ) (total : ℚ)) 100 := by
  unfold jsMul jsDiv
  refine toDouble_nonneg (mul_nonneg (toDouble_nonneg ?_) (by norm_num))
  exact div_nonneg (Nat.cast_nonneg size) (Nat.cast_nonneg total)

/-- Single decimal digits print as one character. -/
theorem toString_digit_length {n : Nat} (h : n < 10) : (toString n).length = 1 := by
  interval_cases n <;> rfl

/-- The emitted array under a nonzero grand total. -/
theorem topLanguagesArray_of_ne (repos : List RepositoryNode) (h : grandTotal repos ≠ 0) :
    topLanguagesArray repos =
      sortDescBySize ((objectEntriesOrdered (langsObject repos)).map
        (entryOf (grandTotal repos))) := by
  unfold topLanguagesArray
  rw [if_neg (show ¬(aggregateLanguages repos).2 = 0 from h)]
  rfl

/-- Every emitted entry is built from an aggregated key/record pair. -/
theorem mem_topLanguagesArray {repos : List RepositoryNode} {ent : LangEntry}
    (hmem : ent ∈ topLanguagesArray repos) :
    ∃ p ∈ langsObject repos, ent = entryOf (grandTotal repos) p := by
  by_cases h : grandTotal repos = 0
  · have hz : topLanguagesArray repos = [] := by
      unfold topLanguagesArray
      rw [if_pos (show (aggregateLanguages repos).2 = 0 from h)]
    rw [hz] at hmem
    simp at hmem
  · rw [topLanguagesArray_of_ne repos h] at hmem
    have h2 := (sortDescBySize_perm _).mem_iff.1 hmem
    rcases List.mem_map.1 h2 with ⟨p, hp, hpe⟩
    exact ⟨p, (objectEntriesOrdered_perm _).mem_iff.1 hp, hpe.symm⟩

/-- The own entries of an ownStep fold do not depend on the running
total component. -/
theorem foldl_ownStep_fst_irrel (es : List LanguageEdge) :
    ∀ (l : List (String × LangAcc)) (t₁ t₂ : Nat),
      (es.foldl ownStep (l, t₁)).1 = (es.foldl ownStep (l, t₂)).1 := by
  induction es with
  | nil => intro l t₁ t₂; rfl
  | cons e es ih =>
    intro l t₁ t₂
    rw [List.foldl_cons, List.foldl_cons]
    exact ih (addEdge l e.node.name e.node.color e.size) _ _

/-- Edges whose names shadow Object.prototype members never touch the
own entries: the faithful edge fold computes the same own entries as the
pure own-entry fold over the filtered edge list. -/
theorem foldl_edgeStep_filter (es : List LanguageEdge) :
    ∀ (l : List (String × LangAcc)) (t : Nat),
      (es.foldl edgeStep (l, t)).1 =
        ((es.filter (fun e => !isObjectPrototypeMember e.node.name)).foldl
          ownStep (l, t)).1 := by
  induction es with
  | nil => intro l t; rfl
  | cons e es ih =>
    intro l t
    by_cases hp : isObjectPrototypeMember e.node.name = true
    · rw [List.foldl_cons,
        show edgeStep (l, t) e = (l, t + e.size) from by simp [edgeStep, hp],
        List.filter_cons_of_neg (by simp [hp]), ih]
      exact foldl_ownStep_fst_irrel _ _ _ _
    · rw [List.foldl_cons,
        show edgeStep (l, t) e = ownStep (l, t) e from by simp [edgeStep, hp],
        List.filter_cons_of_pos (by simp [hp]), List.foldl_cons]
      exact ih (addEdge l e.node.name e.node.color e.size) (t + e.size)

/-- The languages object equals the pure own-entry fold over the edges
that do not shadow Object.prototype members. -/
theorem langsObject_eq_own (repos : List RepositoryNode) :
    langsObject repos = ((ownInputEdges repos).foldl ownStep ([], 0)).1 := by
  unfold langsObject ownInputEdges
  rw [aggregate_eq_foldl]
  exact foldl_edgeStep_filter (inputEdges repos) [] 0

/-- Lookup in the final languages object, characterized by the
non-shadowing input edges: present exactly for the names they carry,
holding the per-name size sum and the first color. -/
theorem findAcc_langsObject (repos : List RepositoryNode) (name : String) :
    findAcc (langsObject repos) name =
      match firstColorFor (ownInputEdges repos) name with
      | some c => some ⟨sizeSumFor (ownInputEdges repos) name, c⟩
      | none => none := by
  have h := findAcc_foldl (ownInputEdges repos) ([], 0) name
  rw [show findAcc ((([], 0) : List (String × LangAcc) × Nat).1) name = none from rfl] at h
  rw [langsObject_eq_own]
  exact h

/-- The final languages object has distinct keys. -/
theorem nodup_langsObject (repos : List RepositoryNode) :
    (keysOf (langsObject repos)).Nodup := by
  rw [langsObject_eq_own]
  exact nodup_keysOf_foldl _ _ (by simp [keysOf])

/-- The grand total is the sum of all input edge sizes, shadowing names
included. -/
theorem grandTotal_eq (repos : List RepositoryNode) :
    grandTotal repos = ((inputEdges repos).map (·.size)).sum := by
  unfold grandTotal
  rw [aggregate_eq_foldl]
  simpa using foldl_edgeStep_total (inputEdges repos) ([], 0)

/-- The sizes stored in the languages object sum to the total size of
the non-shadowing edges only. -/
theorem accSizesSum_langsObject (repos : List RepositoryNode) :
    accSizesSum (langsObject repos) = ((ownInputEdges repos).map (·.size)).sum := by
  rw [langsObject_eq_own]
  simpa [accSizesSum] using accSizesSum_foldl (ownInputEdges repos) ([], 0)

/-- The keys of the languages object list the non-shadowing language
names in first-encounter order. -/
theorem keysOf_langsObject (repos : List RepositoryNode) :
    keysOf (langsObject repos) = firstEncounterNames (ownInputEdges repos) := by
  rw [langsObject_eq_own]
  unfold firstEncounterNames
  simpa [keysOf] using keysOf_foldl (ownInputEdges repos) ([], 0)

/-- A zero grand total yields the empty array. -/
theorem topLanguagesArray_of_zero {repos : List RepositoryNode}
    (h : grandTotal repos = 0) : topLanguagesArray repos = [] := by
  unfold topLanguagesArray
  rw [if_pos (show (aggregateLanguages repos).2 = 0 from h)]

/-- Filtering by a non-shadowing name commutes with dropping the
shadowing edges: both keep exactly the edges carrying that name. -/
theorem filter_name_own {n : String} (h : isObjectPrototypeMember n = false)
    (es : List LanguageEdge) :
    (es.filter (fun e => !isObjectPrototypeMember e.node.name)).filter
        (fun e => e.node.name = n) =
      es.filter (fun e => e.node.name = n) := by
  induction es with
  | nil => rfl
  | cons e es ih =>
    by_cases hn : e.node.name = n
    · rw [List.filter_cons_of_pos (by simp [hn, h]),
        List.filter_cons_of_pos (by simp [hn]),
        List.filter_cons_of_pos (by simp [hn]), ih]
    · by_cases hp : isObjectPrototypeMember e.node.name = true
      · rw [List.filter_cons_of_neg (by simp [hp]),
          List.filter_cons_of_neg (by simp [hn]), ih]
      · rw [List.filter_cons_of_pos (by simp [hp]),
          List.filter_cons_of_neg (by simp [hn]),
          List.filter_cons_of_neg (by simp [hn]), ih]

/-- Finding by a non-shadowing name commutes with dropping the shadowing
edges. -/
theorem find_name_own {n : String} (h : isObjectPrototypeMember n = false)
    (es : List LanguageEdge) :
    (es.filter (fun e => !isObjectPrototypeMember e.node.name)).find?
        (fun e => e.node.name = n) =
      es.find? (fun e => e.node.name = n) := by
  induction es with
  | nil => rfl
  | cons e es ih =>
    by_cases hn : e.node.name = n
    · rw [List.filter_cons_of_pos (by simp [hn, h]),
        List.find?_cons_of_pos _ (by simp [hn]),
        List.find?_cons_of_pos _ (by simp [hn])]
    · by_cases hp : isObjectPrototypeMember e.node.name = true
      · rw [List.filter_cons_of_neg (by simp [hp]),
          List.find?_cons_of_neg _ (by simp [hn]), ih]
      · rw [List.filter_cons_of_pos (by simp [hp]),
          List.find?_cons_of_neg _ (by simp [hn]),
          List.find?_cons_of_neg _ (by simp [hn]), ih]

/-- The per-name size sum of a non-shadowing name ignores the dropped
shadowing edges. -/
theorem sizeSumFor_own {n : String} (h : isObjectPrototypeMember n = false)
    (repos : List RepositoryNode) :
    sizeSumFor (ownInputEdges repos) n = sizeSumFor (inputEdges repos) n := by
  unfold sizeSumFor ownInputEdges
  rw [filter_name_own h]

/-- The first color of a non-shadowing name ignores the dropped
shadowing edges. -/
theorem firstColorFor_own {n : String} (h : isObjectPrototypeMember n = false)
    (repos : List RepositoryNode) :
    firstColorFor (ownInputEdges repos) n = firstColorFor (inputEdges repos) n := by
  unfold firstColorFor ownInputEdges
  rw [find_name_own h]

/-- A name carried by the non-shadowing edges never shadows an
Object.prototype member. -/
theorem nonproto_of_firstColor {repos : List RepositoryNode} {n c : String}
    (h : firstColorFor (ownInputEdges repos) n = some c) :
    isObjectPrototypeMember n = false := by
  unfold firstColorFor at h
  cases hf : (ownInputEdges repos).find? (fun e => e.node.name = n) with
  | none =>
    rw [hf] at h
    cases h
  | some e =>
    have hname : e.node.name = n := by
      have := List.find?_some hf
      simpa using this
    have hmem : e ∈ (inputEdges repos).filter
        (fun e => !isObjectPrototypeMember e.node.name) := by
      have := List.mem_of_find?_eq_some hf
      simpa [ownInputEdges] using this
    have hpred := List.of_mem_filter hmem
    rw [hname] at hpred
    simpa using hpred

/-- The emitted sizes always sum to the total size of the non-shadowing
edges. -/
theorem sum_sizes_topLanguagesArray (repos : List RepositoryNode) :
    ((topLanguagesArray repos).map (·.size)).sum =
      ((ownInputEdges repos).map (·.size)).sum := by
  by_cases h : grandTotal repos = 0
  · rw [topLanguagesArray_of_zero h]
    have hsum := ((List.filter_append_perm
      (fun e => !isObjectPrototypeMember e.node.name) (inputEdges repos)).map
        (·.size)).sum_eq
    rw [List.map_append, List.sum_append] at hsum
    have htot : ((inputEdges repos).map (·.size)).sum = 0 := by
      rw [← grandTotal_eq]
      exact h
    rw [htot] at hsum
    have hown : ((ownInputEdges repos).map (·.size)).sum = 0 := by
      unfold ownInputEdges
      omega
    rw [hown]
    rfl
  · rw [topLanguagesArray_of_ne repos h]
    have h1 : ((sortDescBySize ((objectEntriesOrdered (langsObject repos)).map
        (entryOf (grandTotal repos)))).map (·.size)).sum =
        (((objectEntriesOrdered (langsObject repos)).map
          (entryOf (grandTotal repos))).map (·.size)).sum :=
      ((sortDescBySize_perm _).map _).sum_eq
    rw [h1, List.map_map]
    have h2 : (((objectEntriesOrdered (langsObject repos)).map
        (fun p => p.2.size)).sum) = ((langsObject repos).map (fun p => p.2.size)).sum :=
      ((objectEntriesOrdered_perm _).map _).sum_eq
    have h3 : ((·.size) ∘ entryOf (grandTotal repos)) =
        (fun p : String × LangAcc => p.2.size) := rfl
    rw [h3, h2]
    exact accSizesSum_langsObject repos

/-- C1 amended: for every upstream top-languages response with a
repository-node list present, the handler answers with the aggregated
array; the grand total is the sum of all edge sizes over all
repositories; each emitted entry carries the sum of the sizes of the
edges with its name and the color of the first such edge; and the
emitted sizes sum to the total size of the edges whose names do not
shadow an Object.prototype member — a shadowing name (toString,
constructor, proto accessor, ...) is truthy on first sight, so its entry
is never created and its size is counted only in the grand total. -/
theorem claim_C1_topLanguages_aggregation (repos : List RepositoryNode) :
    (∀ (ok : Bool) (st : Nat),
      topLanguagesHandler ⟨ok, st, .ok ⟨none, some ⟨some ⟨some ⟨some repos⟩⟩⟩⟩⟩ =
        .ok (topLanguagesArray repos))
    ∧ grandTotal repos = ((inputEdges repos).map (·.size)).sum
    ∧ (∀ ent ∈ topLanguagesArray repos,
        ent.size = sizeSumFor (inputEdges repos) ent.name)
    ∧ (∀ ent ∈ topLanguagesArray repos,
        firstColorFor (inputEdges repos) ent.name = some ent.color)
    ∧ ((topLanguagesArray repos).map (·.size)).sum =
        ((ownInputEdges repos).map (·.size)).sum := by
  have key : ∀ ent ∈ topLanguagesArray repos,
      ent.size = sizeSumFor (inputEdges repos) ent.name ∧
      firstColorFor (inputEdges repos) ent.name = some ent.color := by
    intro ent hent
    rcases mem_topLanguagesArray hent with ⟨p, hp, rfl⟩
    rcases p with ⟨n, a⟩
    have hfind : findAcc (langsObject repos) n = some a :=
      findAcc_of_mem (nodup_langsObject repos) hp
    rw [findAcc_langsObject] at hfind
    cases hcol : firstColorFor (ownInputEdges repos) n with
    | none =>
      rw [hcol] at hfind
      cases hfind
    | some c =>
      rw [hcol] at hfind
      have hnp : isObjectPrototypeMember n = false := nonproto_of_firstColor hcol
      have ha : a = ⟨sizeSumFor (ownInputEdges repos) n, c⟩ := by
        cases hfind
        rfl
      subst ha
      constructor
      · show sizeSumFor (ownInputEdges repos) n = sizeSumFor (inputEdges repos) n
        exact sizeSumFor_own hnp repos
      · show firstColorFor (inputEdges repos) n = some c
        rw [← firstColorFor_own hnp repos]
        exact hcol
  exact ⟨fun ok st => rfl, grandTotal_eq repos, fun ent h => (key ent h).1,
    fun ent h => (key ent h).2, sum_sizes_topLanguagesArray repos⟩

/-- C3 amended: the emitted list is sorted descending by size, and ties
keep JavaScript object property order: array-index names first in
ascending numeric order, then the remaining names in insertion order,
which is the first-encounter order of the names that do not shadow an
Object.prototype member (shadowing names never get an own key); when no
name is an array-index string the property order is exactly that
insertion order. -/
theorem claim_C3_sort_stability (repos : List RepositoryNode) :
    (topLanguagesArray repos).Pairwise (fun a b => b.size ≤ a.size)
    ∧ (grandTotal repos ≠ 0 → ∀ s : Nat,
        (topLanguagesArray repos).filter (fun e => e.size = s) =
          ((objectEntriesOrdered (langsObject repos)).map
            (entryOf (grandTotal repos))).filter (fun e => e.size = s))
    ∧ ((∀ p ∈ langsObject repos, arrayIndexValue p.1 = none) →
        objectEntriesOrdered (langsObject repos) = langsObject repos)
    ∧ keysOf (langsObject repos) = firstEncounterNames (ownInputEdges repos) := by
  refine ⟨?_, ?_, objectEntriesOrdered_of_no_index, keysOf_langsObject repos⟩
  · by_cases h : grandTotal repos = 0
    · rw [topLanguagesArray_of_zero h]
      exact List.Pairwise.nil
    · rw [topLanguagesArray_of_ne repos h]
      exact sortDescBySize_sorted _
  · intro h s
    rw [topLanguagesArray_of_ne repos h, filter_sortDescBySize]

/-- C2 amended: each emitted percentage is the toFixed(1) rendering of
the binary64 value of size divided by total times 100, which equals
rounding that double value (not the exact rational) half-away-from-zero
to one decimal place; the string always has exactly one decimal digit. -/
theorem claim_C2_percentage_rounding (size total : Nat) (_h : 0 < total) :
    percentageString size total =
      fixed1String (roundHalfAwayTenths (jsMul (jsDiv (size : ℚ) (total : ℚ)) 100))
    ∧ ∃ intPart digit : String,
        percentageString size total = intPart ++ "." ++ digit ∧ digit.length = 1 := by
  constructor
  · unfold percentageString
    rw [ecmaToFixed_eq_halfAway (jsPercent_nonneg size total)]
  · exact ⟨toString ((ecmaToFixedTenths (jsMul (jsDiv (size : ℚ) (total : ℚ)) 100)).toNat / 10),
      toString ((ecmaToFixedTenths (jsMul (jsDiv (size : ℚ) (total : ℚ)) 100)).toNat % 10),
      rfl, toString_digit_length (Nat.mod_lt _ (by norm_num))⟩

/-- C4: for every upstream contributions response carrying a calendar
(and no errors field), the handler answers with the stored total and the
flattened day sequence in calendar order; the section 8 example yields
exactly the section 8 output. -/
theorem claim_C4_contributions_flatten :
    (∀ (ok : Bool) (st : Nat) (cal : ContributionCalendar),
      contributionsHandler ⟨ok, st, .ok (calendarBody cal)⟩ =
        .ok cal.totalContributions (calendarDays cal))
    ∧ contributionsHandler ⟨true, 200, .ok (calendarBody exampleCalendar)⟩ =
        .ok 2 [⟨"2024-01-01", 1, "#000"⟩, ⟨"2024-01-02", 1, "#111"⟩] := by
  constructor
  · intro ok st cal
    show ContributionsResult.ok cal.totalContributions (flattenCalendar cal) = _
    rw [flattenCalendar_eq]
  · decide

/-- C5 amended: when the upstream calendar is internally consistent (its
stored total equals the sum of its day counts, as GitHub guarantees),
the emitted counts sum to the emitted totalContributions; the handler
itself copies the stored total without validating it. -/
theorem claim_C5_total_consistency (ok : Bool) (st : Nat) (cal : ContributionCalendar)
    (h : cal.totalContributions =
      ((cal.weeks.flatMap (·.contributionDays)).map (·.contributionCount)).sum) :
    contributionsHandler ⟨ok, st, .ok (calendarBody cal)⟩ =
      .ok cal.totalContributions (calendarDays cal)
    ∧ ((calendarDays cal).map (·.count)).sum = cal.totalContributions := by
  constructor
  · show ContributionsResult.ok cal.totalContributions (flattenCalendar cal) = _
    rw [flattenCalendar_eq]
  · unfold calendarDays
    rw [List.map_map]
    exact h.symm

/-- C6 amended: the generic pass-through route propagates a non-success
upstream status as that same status with an error envelope whose details
are the parsed upstream body, or an empty object when parsing fails; all
four GraphQL routes ignore the upstream HTTP status and ok flag entirely
and respond based solely on the parsed body. -/
theorem claim_C6_generic_propagation (githubPath : String) (resp : UpstreamResponse Json)
    (h1 : skipsToNext githubPath = false) (h2 : resp.ok = false) :
    genericHandler githubPath resp =
      .upstreamError resp.status
        (match resp.body with | .ok j => j | .error _ => Json.obj [])
    ∧ (genericHandler githubPath resp).statusCode = resp.status
    ∧ (∀ (b : Except String ContributionsBody) (ok1 ok2 : Bool) (st1 st2 : Nat),
        contributionsHandler ⟨ok1, st1, b⟩ = contributionsHandler ⟨ok2, st2, b⟩)
    ∧ (∀ (b : Except String PinnedBody) (ok1 ok2 : Bool) (st1 st2 : Nat),
        pinnedHandler ⟨ok1, st1, b⟩ = pinnedHandler ⟨ok2, st2, b⟩)
    ∧ (∀ (b : Except String TopLangBody) (ok1 ok2 : Bool) (st1 st2 : Nat),
        topLanguagesHandler ⟨ok1, st1, b⟩ = topLanguagesHandler ⟨ok2, st2, b⟩)
    ∧ (∀ (b : Except String DetailedBody) (ok1 ok2 : Bool) (st1 st2 : Nat),
        detailedActivityHandler ⟨ok1, st1, b⟩ = detailedActivityHandler ⟨ok2, st2, b⟩) := by
  have hg : genericHandler githubPath resp =
      .upstreamError resp.status
        (match resp.body with | .ok j => j | .error _ => Json.obj []) := by
    unfold genericHandler
    rw [if_neg (by simp [h1]), if_pos (by simp [h2])]
  refine ⟨hg, ?_, fun b ok1 ok2 st1 st2 => rfl, fun b ok1 ok2 st1 st2 => rfl,
    fun b ok1 ok2 st1 st2 => rfl, fun b ok1 ok2 st1 st2 => rfl⟩
  rw [hg]
  rfl

/-- C7 amended: the generic handler hands control to the next route
exactly when the wildcard suffix contains one of the four slash-prefixed
reserved substrings; a suffix containing a reserved word without the
leading slash (such as the bare word pinned) is proxied upstream. -/
theorem claim_C7_exclusion (p : String) :
    (skipsToNext p = true ↔
      ("/detailed-activity".data <:+: p.data ∨ "/top-languages".data <:+: p.data ∨
        "/pinned".data <:+: p.data ∨ "/contributions".data <:+: p.data))
    ∧ (∀ resp : UpstreamResponse Json,
        (genericHandler p resp = .next ↔ skipsToNext p = true)) := by
  constructor
  · unfold skipsToNext
    simp only [Bool.or_eq_true, jsIncludes_iff]
    tauto
  · intro resp
    constructor
    · intro h
      by_contra hcon
      unfold genericHandler at h
      rw [if_neg hcon] at h
      by_cases hok : (!resp.ok) = true
      · rw [if_pos hok] at h
        cases h
      · rw [if_neg hok] at h
        cases hb : resp.body with
        | ok j => rw [hb] at h; cases h
        | error m => rw [hb] at h; cases h
    · intro h
      unfold genericHandler
      rw [if_pos h]

/-- The tail of the route chain answers with the fixed 400 body only on
the exact one-segment path detailed-activity. -/
theorem dispatchAfterGeneric_eq_400 {segs : List String}
    (h : dispatchAfterGeneric segs = .invalidEndpoint400) :
    segs = ["detailed-activity"] := by
  rcases segs with _ | ⟨a, _ | ⟨b, _ | ⟨c, _ | ⟨d, _ | ⟨e, _ | ⟨f, rest⟩⟩⟩⟩⟩⟩
  · cases h
  · simp only [dispatchAfterGeneric] at h
    by_cases hda : a = "detailed-activity"
    · simp [hda]
    · rw [if_neg hda] at h
      cases h
  · cases h
  · cases h
  · cases h
  · simp only [dispatchAfterGeneric] at h
    split_ifs at h
  · cases h

/-- C8 amended: the only request path answered by the fixed 400 body is
the exact path /detailed-activity; other paths embedding a reserved
substring but matching no specific route are proxied upstream or fall
through to the Express default not-found response. -/
theorem claim_C8_only_fixed400 (segs : List String) :
    dispatchPath segs = .invalidEndpoint400 ↔ segs = ["detailed-activity"] := by
  constructor
  · intro h
    unfold dispatchPath at h
    by_cases hnil : segs = []
    · rw [if_pos hnil] at h
      cases h
    · rw [if_neg hnil] at h
      cases hg : genericMatch segs with
      | none =>
        rw [hg] at h
        exact dispatchAfterGeneric_eq_400 h
      | some p =>
        rw [hg] at h
        dsimp only at h
        by_cases hskip : skipsToNext p = true
        · rw [if_pos hskip] at h
          exact dispatchAfterGeneric_eq_400 h
        · rw [if_neg hskip] at h
          cases h
  · rintro rfl
    decide

/-- C9: on every GraphQL route, a non-empty upstream errors list makes
the handler throw the first error message, caught and reported as a 500
whose message field is that first message. -/
theorem claim_C9_graphql_errors (e : GqlError) (es : List GqlError) (ok : Bool) (st : Nat)
    (bC : Option ContributionsData) (bP : Option PinnedData)
    (bT : Option TopLangData) (bD : Option DetailedData) :
    contributionsHandler ⟨ok, st, .ok ⟨some (e :: es), bC⟩⟩ = .caughtError e.message
    ∧ (contributionsHandler ⟨ok, st, .ok ⟨some (e :: es), bC⟩⟩).statusCode = 500
    ∧ pinnedHandler ⟨ok, st, .ok ⟨some (e :: es), bP⟩⟩ = .caughtError e.message
    ∧ (pinnedHandler ⟨ok, st, .ok ⟨some (e :: es), bP⟩⟩).statusCode = 500
    ∧ topLanguagesHandler ⟨ok, st, .ok ⟨some (e :: es), bT⟩⟩ = .caughtError e.message
    ∧ (topLanguagesHandler ⟨ok, st, .ok ⟨some (e :: es), bT⟩⟩).statusCode = 500
    ∧ detailedActivityHandler ⟨ok, st, .ok ⟨some (e :: es), bD⟩⟩ = .caughtError e.message
    ∧ (detailedActivityHandler ⟨ok, st, .ok ⟨some (e :: es), bD⟩⟩).statusCode = 500 :=
  ⟨rfl, rfl, rfl, rfl, rfl, rfl, rfl, rfl⟩

/-- C10: on every GraphQL route, an empty upstream errors array is
truthy, so the handler still enters the error branch; reading the
message of the missing first element throws a TypeError, caught and
reported as a 500 — never a success response. -/
theorem claim_C10_empty_errors (ok : Bool) (st : Nat)
    (bC : Option ContributionsData) (bP : Option PinnedData)
    (bT : Option TopLangData) (bD : Option DetailedData) :
    contributionsHandler ⟨ok, st, .ok ⟨some [], bC⟩⟩ = .caughtError undefinedReadMessage
    ∧ (contributionsHandler ⟨ok, st, .ok ⟨some [], bC⟩⟩).statusCode = 500
    ∧ (∀ (t : Nat) (ds : List FlatContribution),
        contributionsHandler ⟨ok, st, .ok ⟨some [], bC⟩⟩ ≠ .ok t ds)
    ∧ pinnedHandler ⟨ok, st, .ok ⟨some [], bP⟩⟩ = .caughtError undefinedReadMessage
    ∧ (pinnedHandler ⟨ok, st, .ok ⟨some [], bP⟩⟩).statusCode = 500
    ∧ (∀ nodes : List PinnedRepo, pinnedHandler ⟨ok, st, .ok ⟨some [], bP⟩⟩ ≠ .ok nodes)
    ∧ topLanguagesHandler ⟨ok, st, .ok ⟨some [], bT⟩⟩ = .caughtError undefinedReadMessage
    ∧ (topLanguagesHandler ⟨ok, st, .ok ⟨some [], bT⟩⟩).statusCode = 500
    ∧ (∀ entries : List LangEntry,
        topLanguagesHandler ⟨ok, st, .ok ⟨some [], bT⟩⟩ ≠ .ok entries)
    ∧ detailedActivityHandler ⟨ok, st, .ok ⟨some [], bD⟩⟩ = .caughtError undefinedReadMessage
    ∧ (detailedActivityHandler ⟨ok, st, .ok ⟨some [], bD⟩⟩).statusCode = 500
    ∧ (∀ coll : DetailedCollection,
        detailedActivityHandler ⟨ok, st, .ok ⟨some [], bD⟩⟩ ≠ .ok coll) := by
  refine ⟨rfl, rfl, ?_, rfl, rfl, ?_, rfl, rfl, ?_, rfl, rfl, ?_⟩ <;>
    · intros
      simp [contributionsHandler, pinnedHandler, topLanguagesHandler,
        detailedActivityHandler, gqlThrownMessage]

section ConcreteEvaluation

attribute [local semireducible] Rat.add Rat.mul Rat.inv Rat.sub Rat.ofScientific

set_option maxRecDepth 40000

/-- C1 counterexample: a language named toString never gets an own entry
(the inherited Object.prototype.toString is truthy), so its 7 bytes are
counted in the grand total of 12 but the emitted entries sum to 5 — the
claimed equality of emitted-size sum and total input size fails. -/
theorem claim_C1_counterexample :
    grandTotal prototypeNameExample = 12
    ∧ ((inputEdges prototypeNameExample).map (·.size)).sum = 12
    ∧ (topLanguagesArray prototypeNameExample).map (fun e => (e.name, e.size)) = [("A", 5)]
    ∧ ((topLanguagesArray prototypeNameExample).map (·.size)).sum = 5
    ∧ (5 : Nat) ≠ 12 := by
  refine ⟨by decide, by decide, by decide, by decide, by decide⟩

/-- C2 counterexample: on the rounding example (sizes 23 and 57, total
80), the code emits 28.7 percent for the 23-byte language although the
exact ratio is 28.75 percent, which rounds half-away-from-zero to 28.8:
the double value of 23 divided by 80 times 100 lies just below 28.75. -/
theorem claim_C2_counterexample :
    (topLanguagesArray roundingExample).map (fun e => (e.name, e.percentage)) =
      [("B", "71.3"), ("A", "28.7")]
    ∧ grandTotal roundingExample = 80
    ∧ fixed1String (roundHalfAwayTenths ((23 : ℚ) / 80 * 100)) = "28.8"
    ∧ ("28.7" : String) ≠ "28.8" := by
  refine ⟨by decide, by decide, by decide, by decide⟩

/-- C3 counterexample: with the equal-size languages named 1 and 0,
encountered in that order, the emitted order is 0 then 1 (JavaScript
array-index key order), not the first-encounter order 1 then 0. -/
theorem claim_C3_counterexample :
    (topLanguagesArray numericNamesExample).map (·.name) = ["0", "1"]
    ∧ firstEncounterNames (inputEdges numericNamesExample) = ["1", "0"]
    ∧ (topLanguagesArray numericNamesExample).map (·.size) = [5, 5]
    ∧ (["0", "1"] : List String) ≠ ["1", "0"] := by
  refine ⟨by decide, by decide, by decide, by decide⟩

/-- C5 counterexample: on a calendar whose stored total 5 disagrees with
its single day count 3, the handler emits totalContributions 5 while the
emitted counts sum to 3. -/
theorem claim_C5_counterexample :
    contributionsHandler ⟨true, 200, .ok (calendarBody inconsistentCalendar)⟩ =
      .ok 5 [⟨"2024-01-01", 3, "#000"⟩]
    ∧ ([(⟨"2024-01-01", 3, "#000"⟩ : FlatContribution)].map (·.count)).sum = 3
    ∧ (5 : Nat) ≠ 3 := by
  refine ⟨by decide, by decide, by decide⟩

/-- C6 counterexample: the contributions route, given an upstream 503
whose body parses to an empty object, answers 404 (calendar missing),
not the upstream status 503 — GraphQL routes never check response.ok. -/
theorem claim_C6_counterexample :
    contributionsHandler ⟨false, 503, .ok ⟨none, none⟩⟩ = .notFound ⟨none, none⟩
    ∧ (contributionsHandler ⟨false, 503, .ok ⟨none, none⟩⟩).statusCode = 404
    ∧ (404 : Nat) ≠ 503 := by
  refine ⟨by decide, by decide, by decide⟩

/-- C7 counterexample: the suffix pinned contains the reserved word
pinned yet the generic handler does not defer — it proxies the request
upstream, because the code checks for the slash-prefixed substring. -/
theorem claim_C7_counterexample :
    skipsToNext "pinned" = false
    ∧ "pinned".data <:+: "pinned".data
    ∧ dispatchPath ["api", "github", "pinned"] = .genericCall "pinned" := by
  refine ⟨by decide, List.infix_rfl, by decide⟩

/-- C8 counterexample: the path /api/github/foo/contributions embeds the
reserved substring contributions and matches no specific route, yet it
receives the Express default not-found response, not the fixed 400. -/
theorem claim_C8_counterexample :
    dispatchPath ["api", "github", "foo", "contributions"] = .expressNotFound
    ∧ skipsToNext "foo/contributions" = true
    ∧ RouteResponse.expressNotFound ≠ RouteResponse.invalidEndpoint400 := by
  refine ⟨by decide, by decide, by decide⟩

/-- Witness for C1 at the rounding example: the emitted 57-byte entry is
in the array and its size is the per-name edge sum for B. -/
theorem claim_C1_witness :
    (⟨"B", "#b2", 57, "71.3"⟩ : LangEntry) ∈ topLanguagesArray roundingExample
    ∧ (⟨"B", "#b2", 57, "71.3"⟩ : LangEntry).size =
        sizeSumFor (inputEdges roundingExample) (⟨"B", "#b2", 57, "71.3"⟩ : LangEntry).name :=
  ⟨by decide,
    (claim_C1_topLanguages_aggregation roundingExample).2.2.1 _ (by decide)⟩

/-- Witness for C2 at size 23 of total 80. -/
theorem claim_C2_witness :
    0 < 80
    ∧ percentageString 23 80 =
        fixed1String (roundHalfAwayTenths
          (jsMul (jsDiv ((23 : Nat) : ℚ) ((80 : Nat) : ℚ)) 100)) :=
  ⟨by decide, (claim_C2_percentage_rounding 23 80 (by decide)).1⟩

/-- Witness for C3 at the numeric-names example, size 5. -/
theorem claim_C3_witness :
    grandTotal numericNamesExample ≠ 0
    ∧ (topLanguagesArray numericNamesExample).filter (fun e => e.size = 5) =
        ((objectEntriesOrdered (langsObject numericNamesExample)).map
          (entryOf (grandTotal numericNamesExample))).filter (fun e => e.size = 5) :=
  ⟨by decide, (claim_C3_sort_stability numericNamesExample).2.1 (by decide) 5⟩

/-- Witness for C5 at the consistent section 8 example calendar. -/
theorem claim_C5_witness :
    exampleCalendar.totalContributions =
      ((exampleCalendar.weeks.flatMap (·.contributionDays)).map (·.contributionCount)).sum
    ∧ ((calendarDays exampleCalendar).map (·.count)).sum =
        exampleCalendar.totalContributions :=
  ⟨by decide, (claim_C5_total_consistency true 200 exampleCalendar (by decide)).2⟩

/-- Witness for C6 at a non-excluded suffix and an upstream 404 whose
body fails to parse: the 404 is propagated with empty details. -/
theorem claim_C6_witness :
    skipsToNext "users/alice/repos" = false
    ∧ (⟨false, 404, .error "bad json"⟩ : UpstreamResponse Json).ok = false
    ∧ genericHandler "users/alice/repos" ⟨false, 404, .error "bad json"⟩ =
        .upstreamError 404 (Json.obj []) :=
  ⟨by decide, rfl,
    (claim_C6_generic_propagation "users/alice/repos" ⟨false, 404, .error "bad json"⟩
      (by decide) rfl).1⟩

end ConcreteEvaluation

end GithubProxy
